import Mathlib

/-!
Verification of the HackerBoxes bill-of-materials scraper (hb.py).

The development shallowly embeds the pure logic of the source file:

* the name normalizer (HackerBoxes.parse_box_names, per-product loop body),
* the pagination walker (HackerBoxes.get_all_boxes),
* the detail-page parser (HackerBoxes.get_box_contents) including the
  li-bullet regex, the product-JSON marker regex, and a model of the
  JSON decoding used for its flat string-valued objects,
* the markdown table renderer (MarkdownTable).

HTTP transport is embedded as explicit response values; Python exceptions
are embedded as an error type in Except results.  Fuel parameters stand in
for unbounded while-loops and regex scanning; the fuel is always
instantiated with the input length, which suffices since every iteration
consumes at least one character.
-/

/-- Python exception kinds that the program can raise or catch. -/
inductive PyErr where
  | httpError
  | assertionError (msg : String)
  | valueError
  | keyError
deriving Repr, DecidableEq

/-- Does the character count as Python whitespace (the re module's \s and
str.split / str.strip on ASCII text): space, tab, newline, carriage return,
vertical tab, form feed. -/
def pyIsSpace (c : Char) : Bool :=
  c == ' ' || c == '\t' || c == '\n' || c == '\r' || c == '\x0b' || c == '\x0c'

/-- ASCII alphanumeric test, modelling Python str.isalnum / the regex class
[a-zA-Z0-9] on the ASCII text the program handles. -/
def pyIsAlnum (c : Char) : Bool :=
  (65 ≤ c.toNat && c.toNat ≤ 90) || (97 ≤ c.toNat && c.toNat ≤ 122) ||
    (48 ≤ c.toNat && c.toNat ≤ 57)

/-- Python str.isalnum: nonempty and every character alphanumeric. -/
def pyIsAlnumStr (s : List Char) : Bool :=
  !s.isEmpty && s.all pyIsAlnum

/-- ASCII lowering of one character, modelling Python str.lower. -/
def pyLower (c : Char) : Char :=
  if 65 ≤ c.toNat && c.toNat ≤ 90 then Char.ofNat (c.toNat + 32) else c

/-- ASCII lowering of a character list. -/
def pyLowerList (s : List Char) : List Char := s.map pyLower

/-- Does the pattern occur at the start of the list (character by character)? -/
def listStartsWith : List Char → List Char → Bool
  | [], _ => true
  | _ :: _, [] => false
  | p :: ps, c :: cs => p == c && listStartsWith ps cs

/-- Does the pattern occur anywhere in the list (Python's "sub in s")? -/
def containsSub (pat : List Char) : List Char → Bool
  | [] => listStartsWith pat []
  | c :: rest => listStartsWith pat (c :: rest) || containsSub pat rest

/-- Split at the first occurrence of the separator, modelling Python
s.split(sep, 1) when it succeeds; none when the separator does not occur
(in the source an unpacking of a 1-element list then raises ValueError). -/
def splitFirst (sep : List Char) : List Char → Option (List Char × List Char)
  | [] => if listStartsWith sep [] then some ([], []) else none
  | c :: rest =>
    if listStartsWith sep (c :: rest) then some ([], (c :: rest).drop sep.length)
    else
      match splitFirst sep rest with
      | some (a, b) => some (c :: a, b)
      | none => none

/-- Python str.strip(): remove leading and trailing whitespace. -/
def pyStrip (s : List Char) : List Char :=
  ((s.dropWhile pyIsSpace).reverse.dropWhile pyIsSpace).reverse

/-- Python str.split() with no argument: split on runs of whitespace,
dropping empty pieces.  The accumulator holds the current token reversed. -/
def pySplitWsAux (acc : List Char) : List Char → List (List Char)
  | [] => if acc.isEmpty then [] else [acc.reverse]
  | c :: rest =>
    if pyIsSpace c then
      if acc.isEmpty then pySplitWsAux [] rest
      else acc.reverse :: pySplitWsAux [] rest
    else pySplitWsAux (c :: acc) rest

/-- Python str.split() with no argument. -/
def pySplitWs (s : List Char) : List (List Char) := pySplitWsAux [] s

/-- Python sep.join(tokens). -/
def joinSep (sep : List Char) : List (List Char) → List Char
  | [] => []
  | [t] => t
  | t :: ts => t ++ sep ++ joinSep sep ts

/-- Characters kept by re.sub(r'[^a-zA-Z0-9\s-]', '', raw_name): ASCII
alphanumerics, whitespace and the hyphen survive. -/
def keepChar (c : Char) : Bool :=
  pyIsAlnum c || pyIsSpace c || c == '-'

/-- Lookup in an association list by key (Python dict access on the literal
NAME_EXCEPTIONS table, whose keys are distinct). -/
def lookupPairs (k : String) : List (String × String) → Option String
  | [] => none
  | (k', v) :: rest => if k = k' then some v else lookupPairs k rest

/-- Module-level NAME_EXCEPTIONS table of hb.py. -/
def NAME_EXCEPTIONS : List (String × String) :=
  [("hackerbox-0095-ai-camera-lab", "hackerbox-0095-ai-camera"),
   ("hackerbox-0050-fifty", "hackerbox-0050"),
   ("hackerbox-0039-level-up", "hackerbox-0039-power-up"),
   ("hackerbox-0022-bbc-microbit", "hackerbox-0022-bbc-micro-bit")]

/-- Separator " - " used by parse_box_names. -/
def sepDash : List Char := [' ', '-', ' ']

/-- Truncation step of the normalizer (hb.py lines 46-47): if the raw name
still contains " - ", keep only the part before the first occurrence. -/
def truncAtSep (r : List Char) : List Char :=
  match splitFirst sepDash r with
  | some (a, _) => a
  | none => r

/-- Name normalizer: the per-product body of HackerBoxes.parse_box_names
(hb.py lines 42-55) applied to one raw variant display label.  Dropping the
first 11 characters models name[11:]; a missing " - " separator makes the
tuple unpacking raise ValueError, embedded as an error result. -/
def parse_name (label : String) : Except PyErr String :=
  let raw_product := label.data.drop 11
  match splitFirst sepDash raw_product with
  | none => .error .valueError
  | some (numberRaw, rawName0) =>
    let number := pyStrip numberRaw
    let rawName1 := truncAtSep rawName0
    let rawName2 := if pyIsAlnumStr rawName1 then rawName1 else rawName1.filter keepChar
    let name := pyLowerList (joinSep ['-'] (pySplitWs rawName2))
    let full_name := String.mk ("hackerbox-".data ++ number ++ '-' :: name)
    match lookupPairs full_name NAME_EXCEPTIONS with
    | some v => .ok v
    | none => .ok full_name

instance {ε α : Type} [DecidableEq ε] [DecidableEq α] : DecidableEq (Except ε α) := fun a b =>
  match a, b with
  | .ok x, .ok y =>
    if h : x = y then .isTrue (by rw [h]) else .isFalse (by intro hh; cases hh; exact h rfl)
  | .error x, .error y =>
    if h : x = y then .isTrue (by rw [h]) else .isFalse (by intro hh; cases hh; exact h rfl)
  | .ok _, .error _ => .isFalse (by intro hh; cases hh)
  | .error _, .ok _ => .isFalse (by intro hh; cases hh)

example : parse_name "HackerBox #0095 - AI Camera Lab - Build a Vision System" =
    .ok "hackerbox-0095-ai-camera" := by decide

example : parse_name "HackerBox #0041 - Circuit Breaker" =
    .ok "hackerbox-0041-circuit-breaker" := by decide

/-- Exception classes caught by the pagination loop of get_all_boxes
(hb.py line 68): requests.HTTPError and AssertionError.  ValueError and
KeyError are not caught. -/
def caughtByWalker (e : PyErr) : Bool :=
  match e with
  | .httpError => true
  | .assertionError _ => true
  | .valueError => false
  | .keyError => false

/-- Body of the while-loop of HackerBoxes.get_all_boxes (hb.py lines 62-70).
The function pages gives the outcome of parse_box_names on the listing page
with the given number (page 1 is the bare base URL, page i for i at least 2
is the ?page=i variant).  The fuel bounds the number of loop iterations; a
none result means the fuel ran out while the loop was still running. -/
def get_all_boxes_loop (pages : Nat → Except PyErr (List String)) :
    Nat → Nat → List String → Option (Except PyErr (List String))
  | 0, _, _ => none
  | fuel + 1, i, boxes =>
    match pages i with
    | .ok names => get_all_boxes_loop pages fuel (i + 1) (boxes ++ names)
    | .error e => if caughtByWalker e then some (.ok boxes) else some (.error e)

/-- HackerBoxes.get_all_boxes (hb.py lines 59-71): fetch page 1 outside any
try-block (its exception propagates), then loop from page 2 extending the
accumulator until a caught exception breaks the loop. -/
def get_all_boxes (pages : Nat → Except PyErr (List String)) (fuel : Nat) :
    Option (Except PyErr (List String)) :=
  match pages 1 with
  | .error e => some (.error e)
  | .ok boxes => get_all_boxes_loop pages fuel 2 boxes

/-- Is the character a lowercase ASCII letter or digit (the class [a-z0-9]
of the slug invariant regex)? -/
def lowerAlnum (c : Char) : Bool :=
  (97 ≤ c.toNat && c.toNat ≤ 122) || (48 ≤ c.toNat && c.toNat ≤ 57)

/-- Split a character list on every hyphen (like Python s.split('-')):
always returns at least one (possibly empty) segment. -/
def splitD : List Char → List (List Char)
  | [] => [[]]
  | c :: rest =>
    if c == '-' then [] :: splitD rest
    else
      match splitD rest with
      | [] => [[c]]
      | s :: ss => (c :: s) :: ss

/-- Does the string match the slug invariant ^[a-z0-9]+(-[a-z0-9]+)*$ :
every hyphen-separated segment is nonempty and lowercase alphanumeric. -/
def matchesSlugRegex (s : List Char) : Bool :=
  (splitD s).all fun t => !t.isEmpty && t.all lowerAlnum

example : matchesSlugRegex "hackerbox-0041-circuit-breaker".data = true := by decide
example : matchesSlugRegex "hackerbox-0001-".data = false := by decide
example : parse_name "HackerBox #0001 - !!!" = .ok "hackerbox-0001-" := by decide

/-- Literal closing tag with JSON-style escaped slash, the first branch of
the regex alternative <\?/li> followed by a newline. -/
def escClose : List Char := ['<', '\\', '/', 'l', 'i', '>', '\n']

/-- Literal closing tag </li> followed by a newline. -/
def litClose : List Char := ['<', '/', 'l', 'i', '>', '\n']

/-- Match the closing part <\?/li>\n of the bullet regex of hb.py line 83 at
the start of the input, returning the remainder after it. -/
def matchClose (s : List Char) : Option (List Char) :=
  if listStartsWith escClose s then some (s.drop 7)
  else if listStartsWith litClose s then some (s.drop 6)
  else none

/-- Lazy body (.+?) of the bullet regex: consume at least one non-newline
character, checking after each one whether the closing tag starts here.
The accumulator holds the characters captured so far. -/
def tryBody (acc : List Char) : List Char → Option (List Char × List Char)
  | [] => none
  | c :: rest =>
    if c == '\n' then none
    else
      match matchClose rest with
      | some rem => some (acc ++ [c], rem)
      | none => tryBody (acc ++ [c]) rest

/-- Lazy attribute part .*?> of the bullet regex: scan non-newline
characters for a '>' and try the body after each candidate '>', extending
the attribute run on failure (regex backtracking). -/
def tryAttrs : List Char → Option (List Char × List Char)
  | [] => none
  | c :: rest =>
    if c == '>' then
      match tryBody [] rest with
      | some r => some r
      | none => tryAttrs rest
    else if c == '\n' then none
    else tryAttrs rest

/-- Literal opening part of the bullet regex: a newline then "<li". -/
def liOpen : List Char := ['\n', '<', 'l', 'i']

/-- Try to match the whole bullet regex \n<li.*?>(.+?)<\?/li>\n at the start
of the input; on success return the captured bullet and the remainder after
the match. -/
def tryMatchAt (s : List Char) : Option (List Char × List Char) :=
  if listStartsWith liOpen s then tryAttrs (s.drop 4) else none

/-- Scanner of re.findall for the bullet regex: try the pattern at every
position left to right, continuing after the end of each match
(non-overlapping matches).  The fuel dominates the input length. -/
def findallAux : Nat → List Char → List (List Char)
  | 0, _ => []
  | _ + 1, [] => []
  | fuel + 1, c :: rest =>
    match tryMatchAt (c :: rest) with
    | some (b, rem) => b :: findallAux fuel rem
    | none => findallAux fuel rest

/-- The bullet extraction re.findall(r'\n<li.*?>(.+?)<\\?/li>\n', description)
of hb.py line 83. -/
def findLis (s : List Char) : List (List Char) :=
  findallAux s.length s

example : findLis "\n<li>a</li>\n\n<li>b</li>\n".data = ["a".data, "b".data] := by decide
example : findLis "<li>a</li>".data = [] := by decide
example : findLis "\n<li>a</li>\n<li>b</li>\n".data = ["a".data] := by decide
example : findLis "\n<li>a<\\/li>\n".data = ["a".data] := by decide
example : findLis "\n<li>a</li>x</li>\n".data = ["a</li>x".data] := by decide

/-- Wrapping of one extracted bullet into an HTML list item, from hb.py
line 92: f'<li>{b}</li>'. -/
def wrapLi (b : List Char) : List Char := "<li>".data ++ b ++ "</li>".data

/-- The table-shaped contents string of hb.py line 93:
f'<ul>{"".join(bullets)}</ul>'. -/
def tableContents (bs : List (List Char)) : List Char :=
  "<ul>".data ++ (bs.map wrapLi).flatten ++ "</ul>".data

/-- Does the pattern occur at the end of the list? -/
def listEndsWith (pat s : List Char) : Bool :=
  listStartsWith pat.reverse s.reverse

/-- Modelled from the spec: the claim of the detail-parser round trip talks
of stripping "the <li></li> wrapper around each item"; this parser reads a
sequence of <li>...</li> items, taking each inner text up to the first
closing tag, and fails on anything else.  The fuel dominates the length. -/
def parseLis : Nat → List Char → Option (List (List Char))
  | _, [] => some []
  | 0, _ :: _ => none
  | fuel + 1, c :: rest =>
    if listStartsWith "<li>".data (c :: rest) then
      match splitFirst "</li>".data ((c :: rest).drop 4) with
      | some (inner, more) =>
        match parseLis fuel more with
        | some items => some (inner :: items)
        | none => none
      | none => none
    else none

/-- Modelled from the spec: strip the single outer <ul></ul> wrapper and the
<li></li> wrapper around each item, recovering the ordered bullet strings;
none when the string is not of that shape. -/
def stripWrappers (s : List Char) : Option (List (List Char)) :=
  if listStartsWith "<ul>".data s then
    let m := s.drop 4
    if listEndsWith "</ul>".data m then
      parseLis m.length (m.take (m.length - 5))
    else none
  else none

example : stripWrappers (tableContents ["a".data, "b".data]) = some ["a".data, "b".data] := by
  decide
example : stripWrappers (tableContents ["a</li>x".data]) = none := by decide

/-- Modelled from the spec: the claim "extracts the inner text of every
<li>...</li> element in the fragment, in document order, accepting both a
literal </li> and an escaped <\/li> closing tag".  An element starts at
"<li" followed by attributes up to '>', and its inner text runs to the
first closing tag.  No newline context is required.  The fuel dominates
the input length. -/
def specLiElemsAux : Nat → List Char → List (List Char)
  | 0, _ => []
  | _ + 1, [] => []
  | fuel + 1, c :: rest =>
    if listStartsWith "<li".data (c :: rest) then
      match splitFirst [('>' : Char)] ((c :: rest).drop 3) with
      | some (_, afterOpen) =>
        match splitFirst "<\\/li>".data afterOpen, splitFirst "</li>".data afterOpen with
        | some (inner, rem), none => inner :: specLiElemsAux fuel rem
        | none, some (inner, rem) => inner :: specLiElemsAux fuel rem
        | some (inner1, rem1), some (inner2, rem2) =>
          if inner1.length ≤ inner2.length then inner1 :: specLiElemsAux fuel rem1
          else inner2 :: specLiElemsAux fuel rem2
        | none, none => []
      | none => []
    else specLiElemsAux fuel rest

/-- Modelled from the spec: every li element's inner text, in document
order. -/
def specLiElems (s : List Char) : List (List Char) :=
  specLiElemsAux s.length s

example : specLiElems "<li>a</li>".data = ["a".data] := by decide
example : specLiElems "\n<li>a</li>\n<li>b</li>\n".data = ["a".data, "b".data] := by decide

/-- Literal marker of the product JSON regex of hb.py line 77. -/
def markerLit : List Char := "ProductJson-product-template\">".data

/-- Match the tail \n\s+</script>\s of the product JSON regex at the start
of the input (the newline, at least one whitespace, the closing script tag,
one more whitespace character). -/
def tailMatch : List Char → Bool
  | '\n' :: rest =>
    let w := rest.takeWhile pyIsSpace
    let r := rest.dropWhile pyIsSpace
    !w.isEmpty && listStartsWith "</script>".data r &&
      (match r.drop 9 with
       | c :: _ => pyIsSpace c
       | [] => false)
  | _ => false

/-- Lazy capture {.+?} of the product JSON regex: having consumed the
opening brace, take at least one character (any character, the search uses
re.DOTALL) and after each one check whether a closing brace followed by the
regex tail starts at the next position; the first position where it does
ends the capture.  Returns the full captured group including both braces. -/
def jsonBody (acc : List Char) : List Char → Option (List Char)
  | [] => none
  | c :: rest =>
    match rest with
    | '}' :: r2 =>
      if tailMatch r2 then some ('{' :: (acc ++ [c]) ++ ['}'])
      else jsonBody (acc ++ [c]) rest
    | _ => jsonBody (acc ++ [c]) rest

/-- Part of the product JSON regex after the marker literal: greedy \s+
(at least one whitespace character, then the next character must open the
brace group because braces are not whitespace), then the lazy group. -/
def afterMarker (s : List Char) : Option (List Char) :=
  let w := s.takeWhile pyIsSpace
  let r := s.dropWhile pyIsSpace
  if w.isEmpty then none
  else
    match r with
    | '{' :: r2 => jsonBody [] r2
    | _ => none

/-- Scanner of re.search for the product JSON regex of hb.py line 77: try
the pattern at each position left to right and return the first captured
group.  The pattern starts with a fixed literal, so only occurrences of the
literal can start a match.  The fuel dominates the input length. -/
def searchProductAux : Nat → List Char → Option (List Char)
  | 0, _ => none
  | _ + 1, [] => none
  | fuel + 1, c :: rest =>
    if listStartsWith markerLit (c :: rest) then
      match afterMarker ((c :: rest).drop markerLit.length) with
      | some g => some g
      | none => searchProductAux fuel rest
    else searchProductAux fuel rest

/-- The product JSON capture of hb.py lines 77-78. -/
def searchProduct (s : List Char) : Option (List Char) :=
  searchProductAux s.length s

/-- JSON whitespace accepted by json.loads between tokens. -/
def jsonWs (c : Char) : Bool :=
  c == ' ' || c == '\t' || c == '\n' || c == '\r'

/-- JSON string body parser modelling json.loads string decoding on the
escapes the scraped pages use: after the opening quote, read characters up
to the closing quote, decoding backslash escapes and rejecting raw control
characters. -/
def parseJString (acc : List Char) : List Char → Option (List Char × List Char)
  | [] => none
  | '"' :: rest => some (acc, rest)
  | '\\' :: rest =>
    match rest with
    | 'n' :: r => parseJString (acc ++ ['\n']) r
    | 't' :: r => parseJString (acc ++ ['\t']) r
    | 'r' :: r => parseJString (acc ++ ['\r']) r
    | '/' :: r => parseJString (acc ++ ['/']) r
    | '\\' :: r => parseJString (acc ++ ['\\']) r
    | '"' :: r => parseJString (acc ++ ['"']) r
    | _ => none
  | c :: rest => if c.toNat < 32 then none else parseJString (acc ++ [c]) rest

/-- Members of a flat JSON object with string keys and string values,
modelling json.loads on the flat objects this development feeds it.  The
fuel dominates the input length. -/
def parseMembers : Nat → List Char → Option (List (String × String) × List Char)
  | 0, _ => none
  | fuel + 1, s =>
    match s.dropWhile jsonWs with
    | '"' :: r1 =>
      match parseJString [] r1 with
      | some (k, r2) =>
        match r2.dropWhile jsonWs with
        | ':' :: r3 =>
          match r3.dropWhile jsonWs with
          | '"' :: r4 =>
            match parseJString [] r4 with
            | some (v, r5) =>
              match r5.dropWhile jsonWs with
              | ',' :: r6 =>
                match parseMembers fuel r6 with
                | some (ps, rem) => some ((String.mk k, String.mk v) :: ps, rem)
                | none => none
              | '\x7d' :: r6 => some ([(String.mk k, String.mk v)], r6)
              | _ => none
            | none => none
          | _ => none
        | _ => none
      | none => none
    | _ => none

/-- Model of json.loads for a flat JSON object of string keys and string
values; none models a raised JSONDecodeError (a ValueError). -/
def jsonLoadsFlat (s : List Char) : Option (List (String × String)) :=
  match s.dropWhile jsonWs with
  | '\x7b' :: r =>
    match r.dropWhile jsonWs with
    | '\x7d' :: r2 => if (r2.dropWhile jsonWs).isEmpty then some [] else none
    | _ =>
      match parseMembers s.length r with
      | some (ps, rem) => if (rem.dropWhile jsonWs).isEmpty then some ps else none
      | none => none
  | _ => none

/-- Python dict access on a decoded JSON object: with duplicate keys the
last occurrence wins, so look the key up from the right. -/
def dictGet (k : String) (ps : List (String × String)) : Option String :=
  lookupPairs k ps.reverse

example : jsonLoadsFlat "\x7b\"description\": \"\\n<li>a</li>\\n\", \"featured_image\": \"//cdn/x.png\"\x7d".data =
    some [("description", "\n<li>a</li>\n"), ("featured_image", "//cdn/x.png")] := by decide

/-- An HTTP response as the core sees it: status code and body text.  The
transport layer is an external collaborator; response.content is modelled
by the same body string. -/
structure HttpResponse where
  status : Nat
  body : String
deriving Repr, DecidableEq

/-- The table-shaped row dict of hb.py line 96. -/
structure TableRow where
  name : String
  picture : String
  contents : String
deriving Repr, DecidableEq

/-- The json-shaped row dict of hb.py line 97. -/
structure JsonRow where
  name : String
  picture : String
  contents : List String
deriving Repr, DecidableEq

/-- Everything one get_box_contents call produces: the two row shapes, the
name of the written image file and the bytes written to it. -/
structure BoxResult where
  table_data : TableRow
  json_data : JsonRow
  image_path : String
  image_bytes : String
deriving Repr, DecidableEq

/-- Base catalog URL set in HackerBoxes.__init__. -/
def BASE_URL : String := "https://hackerboxes.com/collections/past-hackerboxes"

/-- HackerBoxes.get_box_contents (hb.py lines 73-98).  The detail response
is the transport's answer for the detail page; imageFetch is the
transport's answer for any image URL.  Note that the source consults
neither response's status code: no raise_for_status is called in this
method.  A failed marker search raises AssertionError; an empty description
fails the bare assert; JSON decoding failure raises a ValueError; a missing
key raises KeyError.  None of these are caught by any caller. -/
def get_box_contents_m (name : String) (detail : HttpResponse)
    (imageFetch : String → HttpResponse) : Except PyErr BoxResult :=
  let box_url := BASE_URL ++ "/products/" ++ name
  match searchProduct detail.body.data with
  | none => .error (.assertionError ("no contents json found for: " ++ name ++ "!"))
  | some g =>
    match jsonLoadsFlat g with
    | none => .error .valueError
    | some product =>
      match dictGet "description" product with
      | none => .error .keyError
      | some description =>
        if description.data.isEmpty then .error (.assertionError "")
        else
          let contents := findLis description.data
          match dictGet "featured_image" product with
          | none => .error .keyError
          | some featured =>
            let image_url := String.mk (featured.data.drop 2)
            let imageResp := imageFetch ("https://" ++ image_url)
            let image_path := name ++ ".png"
            let table_contents := String.mk (tableContents contents)
            let table_name := "[" ++ name ++ "](" ++ box_url ++ ")"
            let picture := "![" ++ name ++ "](assets/" ++ image_path ++ ")"
            .ok { table_data := { name := table_name, picture := picture,
                                  contents := table_contents },
                  json_data := { name := name, picture := picture,
                                 contents := contents.map String.mk },
                  image_path := image_path,
                  image_bytes := imageResp.body }

/-- HackerBoxes.get_all_box_contents (hb.py lines 100-108): one detail
fetch per name, sequential, no exception handling, collecting the two row
lists in matching order. -/
def get_all_box_contents_m (detailFetch : String → HttpResponse)
    (imageFetch : String → HttpResponse) :
    List String → Except PyErr (List TableRow × List JsonRow)
  | [] => .ok ([], [])
  | n :: rest =>
    match get_box_contents_m n (detailFetch n) imageFetch with
    | .error e => .error e
    | .ok r =>
      match get_all_box_contents_m detailFetch imageFetch rest with
      | .error e => .error e
      | .ok (ts, js) => .ok (r.table_data :: ts, r.json_data :: js)

/-- Does the row dict contain the key (Python "h in row")? -/
def hasKey (row : List (String × String)) (h : String) : Bool :=
  (lookupPairs h row).isSome

/-- The failing condition of the per-row assertion in MarkdownTable.__init__
(hb.py line 116): some header key is missing from the row. -/
def rowOffends (headers : List String) (row : List (String × String)) : Bool :=
  !headers.all fun h => hasKey row h

/-- Python repr of a string without quote characters inside, as f-string
formatting of a dict renders its keys and values. -/
def pyReprStr (s : String) : String := "'" ++ s ++ "'"

/-- The f-string rendering f'{row}' of a row dict of strings, used in the
assertion message of MarkdownTable.__init__. -/
def pyReprRow (row : List (String × String)) : String :=
  "\x7b" ++ String.intercalate ", "
    (row.map fun p => pyReprStr p.1 ++ ": " ++ pyReprStr p.2) ++ "\x7d"

/-- The MarkdownTable state after a successful __init__. -/
structure MarkdownTable where
  headers : List String
  rows : List (List (String × String))
deriving Repr, DecidableEq

/-- MarkdownTable.__init__ (hb.py lines 114-118): assert per row, in order,
that every header key is present; the first offending row raises an
AssertionError naming that row, and no table object (hence no table text)
is produced. -/
def MarkdownTable.mk_checked (headers : List String)
    (rows : List (List (String × String))) : Except PyErr MarkdownTable :=
  match rows.find? (rowOffends headers) with
  | some row => .error (.assertionError ("Missing header for: " ++ pyReprRow row))
  | none => .ok { headers := headers, rows := rows }

/-- Python dict access row[h] inside make_rows.  Construction through
mk_checked guarantees the key is present, so the default is unreachable on
checked tables. -/
def rowGet (row : List (String × String)) (h : String) : String :=
  (lookupPairs h row).getD ""

/-- MarkdownTable.make_headers (hb.py lines 120-125): the header line, with
the joined header text stripped of surrounding whitespace, then the
separator line whose dash runs have length len(header) + 2. -/
def MarkdownTable.make_headers (t : MarkdownTable) : String :=
  "| " ++ String.mk (pyStrip (String.intercalate " | " t.headers).data) ++ " |\n" ++
    "| " ++ String.intercalate " | "
      (t.headers.map fun h => String.mk (List.replicate (h.length + 2) '-')) ++ " |\n"

/-- MarkdownTable.make_rows (hb.py lines 127-134): one line per row, values
in header order, inserted verbatim. -/
def MarkdownTable.make_rows (t : MarkdownTable) : String :=
  String.join (t.rows.map fun row =>
    "| " ++ String.intercalate " | " (t.headers.map (rowGet row)) ++ " |\n")

/-- MarkdownTable.generate (hb.py lines 136-140). -/
def MarkdownTable.generate (t : MarkdownTable) : String :=
  t.make_headers ++ t.make_rows

example : (MarkdownTable.mk_checked ["a", "b"] [[("a", "x"), ("b", "y")]]).map
    MarkdownTable.generate = .ok "| a | b |\n| --- | --- |\n| x | y |\n" := by decide

example :
    get_box_contents_m "box1"
      { status := 404,
        body := "ProductJson-product-template\">\n  \x7b\"description\": \"\\n<li>a</li>\\n\", \"featured_image\": \"//cdn/x.png\"\x7d\n  </script> " }
      (fun _ => { status := 404, body := "imgbytes" }) =
    .ok { table_data :=
            { name := "[box1](https://hackerboxes.com/collections/past-hackerboxes/products/box1)",
              picture := "![box1](assets/box1.png)",
              contents := "<ul><li>a</li></ul>" },
          json_data :=
            { name := "box1", picture := "![box1](assets/box1.png)", contents := ["a"] },
          image_path := "box1.png",
          image_bytes := "imgbytes" } := by decide

/-!  General helper lemmas. -/

theorem splitFirst_eq_none_of_not_contains (sep : List Char) :
    ∀ s, containsSub sep s = false → splitFirst sep s = none := by
  intro s
  induction s with
  | nil =>
    intro h
    simp only [containsSub] at h
    simp [splitFirst, h]
  | cons c rest ih =>
    intro h
    simp only [containsSub, Bool.or_eq_false_iff] at h
    obtain ⟨h1, h2⟩ := h
    simp [splitFirst, h1, ih h2]

/-- C1: for every run of the pagination walker in which the base listing
page and page 2 each yield a non-empty slug list but the fetch of page 3
raises a transport failure, the walker returns exactly the concatenation of
page 1's slugs followed by page 2's slugs, in original order, and does not
raise. -/
theorem C1_walker_truncates_at_page3 (pages : Nat → Except PyErr (List String))
    (p1 p2 : List String) (fuel : Nat)
    (h1 : pages 1 = .ok p1) (h2 : pages 2 = .ok p2)
    (hne1 : p1 ≠ []) (hne2 : p2 ≠ [])
    (h3 : pages 3 = .error .httpError) (hfuel : 2 ≤ fuel) :
    get_all_boxes pages fuel = some (.ok (p1 ++ p2)) := by
  obtain ⟨f, rfl⟩ : ∃ f, fuel = f + 2 := ⟨fuel - 2, by omega⟩
  simp only [get_all_boxes, h1]
  rw [show f + 2 = f + 1 + 1 from rfl]
  simp only [get_all_boxes_loop, h2, h3]
  rfl

/-- Concrete page environment for the C1 witness: two pages of data then a
transport failure. -/
def pagesC1 : Nat → Except PyErr (List String) := fun i =>
  if i = 1 then .ok ["hackerbox-0001-a"]
  else if i = 2 then .ok ["hackerbox-0002-b"]
  else .error .httpError

theorem C1_walker_truncates_at_page3_witness :
    get_all_boxes pagesC1 2 = some (.ok ["hackerbox-0001-a", "hackerbox-0002-b"]) :=
  C1_walker_truncates_at_page3 pagesC1 _ _ 2 rfl rfl (by decide) (by decide) rfl (by decide)

/-- C10: a failure of the very first (base) listing page propagates out of
get_all_boxes instead of being swallowed, while the same kind of failure on
page 2 (or later) merely terminates the loop, returning what page 1 gave. -/
theorem C10_first_page_failure_propagates :
    (∀ (pages : Nat → Except PyErr (List String)) (e : PyErr) (fuel : Nat),
        caughtByWalker e = true → pages 1 = .error e →
          get_all_boxes pages fuel = some (.error e)) ∧
    (∀ (pages : Nat → Except PyErr (List String)) (p1 : List String) (e : PyErr) (fuel : Nat),
        pages 1 = .ok p1 → pages 2 = .error e → caughtByWalker e = true → 1 ≤ fuel →
          get_all_boxes pages fuel = some (.ok p1)) := by
  constructor
  · intro pages e fuel _ h1
    simp [get_all_boxes, h1]
  · intro pages p1 e fuel h1 h2 hc hfuel
    obtain ⟨f, rfl⟩ : ∃ f, fuel = f + 1 := ⟨fuel - 1, by omega⟩
    simp only [get_all_boxes, h1, get_all_boxes_loop, h2, hc]
    rfl

/-- Concrete page environment for the C10 witness: the base page already
fails with the no-products assertion. -/
def pagesC10a : Nat → Except PyErr (List String) := fun _ =>
  .error (.assertionError "no products found for: base!")

/-- Concrete page environment for the C10 witness: page 1 succeeds, page 2
fails with an HTTP error. -/
def pagesC10b : Nat → Except PyErr (List String) := fun i =>
  if i = 1 then .ok ["hackerbox-0001-a"] else .error .httpError

theorem C10_first_page_failure_propagates_witness :
    get_all_boxes pagesC10a 1 =
        some (.error (.assertionError "no products found for: base!")) ∧
    get_all_boxes pagesC10b 1 = some (.ok ["hackerbox-0001-a"]) :=
  ⟨C10_first_page_failure_propagates.1 pagesC10a _ 1 (by decide) rfl,
   C10_first_page_failure_propagates.2 pagesC10b _ .httpError 1 rfl rfl (by decide) (by decide)⟩

/-- C9: a raw label whose post-prefix remainder does not contain " - " makes
the normalizer raise (ValueError from the failed tuple unpacking) rather
than return a slug; and ValueError is not among the exception classes the
pagination loop catches, so it propagates to the caller of get_all_boxes
rather than being treated as a recoverable end-of-data signal. -/
theorem C9_missing_separator_raises :
    (∀ label : String, containsSub sepDash (label.data.drop 11) = false →
        parse_name label = .error .valueError) ∧
    (∀ (pages : Nat → Except PyErr (List String)) (p1 : List String) (fuel : Nat),
        pages 1 = .ok p1 → pages 2 = .error .valueError → 1 ≤ fuel →
          get_all_boxes pages fuel = some (.error .valueError)) := by
  constructor
  · intro label h
    have hn := splitFirst_eq_none_of_not_contains sepDash _ h
    simp [parse_name, hn]
  · intro pages p1 fuel h1 h2 hfuel
    obtain ⟨f, rfl⟩ : ∃ f, fuel = f + 1 := ⟨fuel - 1, by omega⟩
    simp only [get_all_boxes, h1, get_all_boxes_loop, h2]
    rfl

/-- Concrete page environment for the C9 witness: page 2 raises ValueError
(a malformed product name reached the tuple unpacking). -/
def pagesC9 : Nat → Except PyErr (List String) := fun i =>
  if i = 1 then .ok ["hackerbox-0001-a"] else .error .valueError

theorem C9_missing_separator_raises_witness :
    parse_name "HackerBox #0001 no separator here" = .error .valueError ∧
    get_all_boxes pagesC9 1 = some (.error .valueError) :=
  ⟨C9_missing_separator_raises.1 "HackerBox #0001 no separator here" (by decide),
   C9_missing_separator_raises.2 pagesC9 _ 1 rfl rfl (by decide)⟩

/-- C2: the label "HackerBox #0095 - AI Camera Lab - Build a Vision System"
normalizes to exactly "hackerbox-0095-ai-camera": the title is truncated at
the first " - " after the number, slugified to hackerbox-0095-ai-camera-lab,
and that key is replaced through the exception table. -/
theorem C2_normalizer_example :
    parse_name "HackerBox #0095 - AI Camera Lab - Build a Vision System" =
        .ok "hackerbox-0095-ai-camera" ∧
    truncAtSep "AI Camera Lab - Build a Vision System".data = "AI Camera Lab".data ∧
    lookupPairs "hackerbox-0095-ai-camera-lab" NAME_EXCEPTIONS =
        some "hackerbox-0095-ai-camera" := by
  refine ⟨by decide, by decide, by decide⟩

/-- C7: for headers ["a", "b"] and the single row {"a": "x", "b": "y"} the
renderer produces exactly the three-line table whose separator dash runs
have length len(header) + 2 = 3. -/
theorem C7_renderer_example :
    (MarkdownTable.mk_checked ["a", "b"] [[("a", "x"), ("b", "y")]]).map
        MarkdownTable.generate = .ok "| a | b |\n| --- | --- |\n| x | y |\n" ∧
    "---".length = "a".length + 2 ∧ "---".length = "b".length + 2 := by
  refine ⟨by decide, by decide, by decide⟩

/-- C8: whenever some row lacks at least one header key, construction of the
MarkdownTable fails with an AssertionError whose message names the first
offending row, and no table value (hence no table text, not even a prefix)
is produced. -/
theorem C8_missing_key_fails (headers : List String) (rows : List (List (String × String)))
    (h : ∃ row ∈ rows, rowOffends headers row = true) :
    ∃ r, rowOffends headers r = true ∧
      MarkdownTable.mk_checked headers rows =
        .error (.assertionError ("Missing header for: " ++ pyReprRow r)) := by
  have hs : (rows.find? (rowOffends headers)).isSome := by
    rw [List.find?_isSome]
    obtain ⟨row, hmem, hoff⟩ := h
    exact ⟨row, hmem, hoff⟩
  obtain ⟨r, hr⟩ := Option.isSome_iff_exists.mp hs
  exact ⟨r, List.find?_some hr, by simp [MarkdownTable.mk_checked, hr]⟩

theorem C8_missing_key_fails_witness :
    ∃ r, rowOffends ["a", "b"] r = true ∧
      MarkdownTable.mk_checked ["a", "b"] [[("a", "x")]] =
        .error (.assertionError ("Missing header for: " ++ pyReprRow r)) :=
  C8_missing_key_fails ["a", "b"] [[("a", "x")]] ⟨[("a", "x")], by decide, by decide⟩

/-- Detail-page body used for the C6 counterexample: a valid product JSON
block, as served with a non-2xx status. -/
def bodyC6 : String :=
  "ProductJson-product-template\">\n  \x7b\"description\": \"\\n<li>a</li>\\n\", \"featured_image\": \"//cdn/x.png\"\x7d\n  </script> "

/-- C6 counterexample: the claim says a non-2xx detail or image response
makes get_box_contents fail, but the source never calls raise_for_status
there; a 404 detail response whose body carries the product JSON and a 404
image response succeed, and the 404 image bytes are even written out. -/
theorem C6_counterexample :
    get_box_contents_m "box1" { status := 404, body := bodyC6 }
        (fun _ => { status := 404, body := "imgbytes" }) =
      .ok { table_data :=
              { name := "[box1](https://hackerboxes.com/collections/past-hackerboxes/products/box1)",
                picture := "![box1](assets/box1.png)",
                contents := "<ul><li>a</li></ul>" },
            json_data :=
              { name := "box1", picture := "![box1](assets/box1.png)", contents := ["a"] },
            image_path := "box1.png",
            image_bytes := "imgbytes" } := by decide

/-- C6 amended: HTTP status is never consulted during a detail or image
fetch — the outcome of get_box_contents depends only on the response bodies;
a detail body without the product JSON marker raises an AssertionError, and
a failing get_box_contents call makes the whole get_all_box_contents
aggregation fail (the error is not swallowed the way pagination failures
are). -/
theorem C6_status_never_consulted :
    (∀ (name : String) (s₁ s₂ : Nat) (body : String) (imageFetch : String → HttpResponse),
        get_box_contents_m name { status := s₁, body := body } imageFetch =
          get_box_contents_m name { status := s₂, body := body } imageFetch) ∧
    (∀ (name : String) (detail : HttpResponse) (imageFetch : String → HttpResponse),
        searchProduct detail.body.data = none →
          get_box_contents_m name detail imageFetch =
            .error (.assertionError ("no contents json found for: " ++ name ++ "!"))) ∧
    (∀ (detailFetch imageFetch : String → HttpResponse) (names : List String) (n : String),
        n ∈ names → (get_box_contents_m n (detailFetch n) imageFetch).isOk = false →
          (get_all_box_contents_m detailFetch imageFetch names).isOk = false) := by
  refine ⟨?_, ?_, ?_⟩
  · intro name s₁ s₂ body imageFetch
    rfl
  · intro name detail imageFetch h
    simp [get_box_contents_m, h]
  · intro detailFetch imageFetch names
    induction names with
    | nil => intro n h; simp at h
    | cons m rest ih =>
      intro n hmem hfail
      show (match get_box_contents_m m (detailFetch m) imageFetch with
        | .error e => Except.error e
        | .ok r =>
          match get_all_box_contents_m detailFetch imageFetch rest with
          | .error e => Except.error e
          | .ok (ts, js) => Except.ok (r.table_data :: ts, r.json_data :: js)).isOk = false
      cases hgb : get_box_contents_m m (detailFetch m) imageFetch with
      | error e => rfl
      | ok r =>
        rcases List.mem_cons.mp hmem with rfl | hmem'
        · rw [hgb] at hfail
          simp [Except.isOk, Except.toBool] at hfail
        · have hrest := ih n hmem' hfail
          cases hr : get_all_box_contents_m detailFetch imageFetch rest with
          | error e => rfl
          | ok p =>
            rw [hr] at hrest
            simp [Except.isOk, Except.toBool] at hrest

theorem C6_status_never_consulted_witness :
    get_box_contents_m "b" { status := 500, body := "no marker here" }
        (fun _ => { status := 200, body := "" }) =
      .error (.assertionError "no contents json found for: b!") ∧
    (get_all_box_contents_m (fun _ => { status := 500, body := "no marker here" })
        (fun _ => { status := 200, body := "" }) ["b"]).isOk = false :=
  ⟨C6_status_never_consulted.2.1 "b" { status := 500, body := "no marker here" }
      (fun _ => { status := 200, body := "" }) (by decide),
   C6_status_never_consulted.2.2 (fun _ => { status := 500, body := "no marker here" })
      (fun _ => { status := 200, body := "" }) ["b"] "b" (by simp) (by decide)⟩

/-!  Character-level lemmas for the slug invariant. -/

theorem charOfNat_toNat {n : Nat} (h : n < 55296) : (Char.ofNat n).toNat = n := by
  have hv : n.isValidChar := Or.inl h
  simp [Char.ofNat, hv, Char.ofNatAux, Char.toNat, UInt32.toNat]

theorem not_space_of_alnum {c : Char} (h : pyIsAlnum c = true) : pyIsSpace c = false := by
  simp only [pyIsSpace, Bool.or_eq_false_iff, beq_eq_false_iff_ne]
  refine ⟨⟨⟨⟨⟨?_, ?_⟩, ?_⟩, ?_⟩, ?_⟩, ?_⟩ <;>
    · rintro rfl
      revert h
      decide

theorem lowerAlnum_ne_dash {c : Char} (h : lowerAlnum c = true) : c ≠ '-' := by
  rintro rfl
  revert h
  decide

theorem pyLower_lowerAlnum {c : Char} (h : pyIsAlnum c = true) : lowerAlnum (pyLower c) = true := by
  simp only [pyIsAlnum, Bool.or_eq_true, Bool.and_eq_true, decide_eq_true_eq] at h
  rw [pyLower]
  by_cases hu : (65 ≤ c.toNat && c.toNat ≤ 90) = true
  · rw [if_pos hu]
    simp only [Bool.and_eq_true, decide_eq_true_eq] at hu
    have hv : c.toNat + 32 < 55296 := by omega
    simp only [lowerAlnum, charOfNat_toNat hv, Bool.or_eq_true, Bool.and_eq_true,
      decide_eq_true_eq]
    omega
  · rw [if_neg hu]
    have hu' : c.toNat < 65 ∨ 90 < c.toNat := by
      by_contra hc
      push_neg at hc
      exact hu (by simp only [Bool.and_eq_true, decide_eq_true_eq]; omega)
    simp only [lowerAlnum, Bool.or_eq_true, Bool.and_eq_true, decide_eq_true_eq]
    omega

/-!  Lemmas about splitting on hyphens. -/

theorem splitD_ne_nil (s : List Char) : splitD s ≠ [] := by
  cases s with
  | nil => simp [splitD]
  | cons c rest =>
    rw [splitD]
    split
    · simp
    · split <;> simp

theorem splitD_append_dash (xs ys : List Char) :
    splitD (xs ++ '-' :: ys) = splitD xs ++ splitD ys := by
  induction xs with
  | nil => simp [splitD]
  | cons c xs ih =>
    by_cases h : (c == '-') = true
    · rw [List.cons_append]
      rw [show splitD (c :: (xs ++ '-' :: ys)) = [] :: splitD (xs ++ '-' :: ys) from by
        rw [splitD, if_pos h]]
      rw [show splitD (c :: xs) = [] :: splitD xs from by rw [splitD, if_pos h]]
      rw [ih]
      rfl
    · obtain ⟨s, ss, hs⟩ : ∃ s ss, splitD xs = s :: ss := by
        cases hxs : splitD xs with
        | nil => exact absurd hxs (splitD_ne_nil xs)
        | cons s ss => exact ⟨s, ss, rfl⟩
      rw [List.cons_append]
      rw [splitD, if_neg (by simp_all), ih, hs]
      rw [show splitD (c :: xs) = (c :: s) :: ss from by rw [splitD, if_neg (by simp_all), hs]]
      rfl

theorem splitD_no_dash (xs : List Char) (h : ∀ c ∈ xs, c ≠ '-') : splitD xs = [xs] := by
  induction xs with
  | nil => rfl
  | cons c rest ih =>
    have hc : (c == '-') = false := by
      rw [beq_eq_false_iff_ne]
      exact h c (List.mem_cons_self _ _)
    rw [splitD, if_neg (by simp [hc])]
    rw [ih fun d hd => h d (List.mem_cons_of_mem _ hd)]

/-!  Lemmas about joining tokens and lowering. -/

theorem pyLowerList_joinSep (ts : List (List Char)) :
    pyLowerList (joinSep ['-'] ts) = joinSep ['-'] (ts.map pyLowerList) := by
  induction ts with
  | nil => rfl
  | cons t ts ih =>
    cases ts with
    | nil => rfl
    | cons t' ts' =>
      show pyLowerList (t ++ ['-'] ++ joinSep ['-'] (t' :: ts')) =
        pyLowerList t ++ ['-'] ++ joinSep ['-'] ((t' :: ts').map pyLowerList)
      rw [← ih]
      simp only [pyLowerList, List.map_append]
      rfl

theorem splitD_joinSep (ts : List (List Char)) (hne : ts ≠ [])
    (h : ∀ t ∈ ts, ∀ c ∈ t, c ≠ '-') : splitD (joinSep ['-'] ts) = ts := by
  induction ts with
  | nil => exact absurd rfl hne
  | cons t ts ih =>
    cases ts with
    | nil => exact splitD_no_dash t (h t (List.mem_cons_self _ _))
    | cons t' ts' =>
      show splitD (t ++ ['-'] ++ joinSep ['-'] (t' :: ts')) = t :: t' :: ts'
      rw [List.append_assoc, List.singleton_append, splitD_append_dash]
      rw [splitD_no_dash t (h t (List.mem_cons_self _ _))]
      rw [ih (by simp) fun u hu c hc => h u (List.mem_cons_of_mem _ hu) c hc]
      rfl

/-!  Lemmas about whitespace splitting. -/

theorem pySplitWsAux_sound (Q : Char → Prop) :
    ∀ (s acc : List Char), (∀ c ∈ acc, Q c ∧ pyIsSpace c = false) →
      (∀ c ∈ s, pyIsSpace c = false → Q c) →
      ∀ t ∈ pySplitWsAux acc s, t ≠ [] ∧ ∀ c ∈ t, Q c ∧ pyIsSpace c = false := by
  intro s
  induction s with
  | nil =>
    intro acc hacc _ t ht
    rw [pySplitWsAux] at ht
    by_cases h : acc.isEmpty = true
    · rw [if_pos h] at ht
      simp at ht
    · rw [if_neg h] at ht
      simp only [List.mem_singleton] at ht
      subst ht
      refine ⟨by simpa [List.isEmpty_iff] using h, fun c hc => hacc c (List.mem_reverse.mp hc)⟩
  | cons c rest ih =>
    intro acc hacc hs t ht
    rw [pySplitWsAux] at ht
    by_cases hws : pyIsSpace c = true
    · rw [if_pos hws] at ht
      by_cases hae : acc.isEmpty = true
      · rw [if_pos hae] at ht
        exact ih [] (by simp) (fun d hd => hs d (List.mem_cons_of_mem _ hd)) t ht
      · rw [if_neg hae] at ht
        rcases List.mem_cons.mp ht with rfl | ht'
        · refine ⟨by simpa [List.isEmpty_iff] using hae,
            fun d hd => hacc d (List.mem_reverse.mp hd)⟩
        · exact ih [] (by simp) (fun d hd => hs d (List.mem_cons_of_mem _ hd)) t ht'
    · rw [if_neg hws] at ht
      rw [Bool.not_eq_true] at hws
      refine ih (c :: acc) ?_ (fun d hd => hs d (List.mem_cons_of_mem _ hd)) t ht
      intro d hd
      rcases List.mem_cons.mp hd with rfl | hd'
      · exact ⟨hs d (List.mem_cons_self _ _) hws, hws⟩
      · exact hacc d hd'

theorem pySplitWsAux_ne_nil :
    ∀ (s acc : List Char), (acc ≠ [] ∨ ∃ c ∈ s, pyIsSpace c = false) →
      pySplitWsAux acc s ≠ [] := by
  intro s
  induction s with
  | nil =>
    intro acc h
    rw [pySplitWsAux]
    rcases h with h | ⟨c, hc, _⟩
    · rw [if_neg (by simpa [List.isEmpty_iff] using h)]
      simp
    · simp at hc
  | cons c rest ih =>
    intro acc h
    rw [pySplitWsAux]
    by_cases hws : pyIsSpace c = true
    · rw [if_pos hws]
      by_cases hae : acc.isEmpty = true
      · rw [if_pos hae]
        refine ih [] (Or.inr ?_)
        rcases h with h | ⟨d, hd, hdws⟩
        · exact absurd (List.isEmpty_iff.mp hae) h
        · rcases List.mem_cons.mp hd with rfl | hd'
          · rw [hws] at hdws
            cases hdws
          · exact ⟨d, hd', hdws⟩
      · rw [if_neg hae]
        simp
    · rw [if_neg hws]
      exact ih (c :: acc) (Or.inl (by simp))

theorem lookup_NAME_EXCEPTIONS_regex (k v : String)
    (h : lookupPairs k NAME_EXCEPTIONS = some v) : matchesSlugRegex v.data = true := by
  simp only [NAME_EXCEPTIONS, lookupPairs] at h
  split_ifs at h <;> cases h <;> decide

/-- Core of the slug invariant: the composed slug built by the normalizer
matches the regex whenever the number part is clean and the cleaned title
has at least one non-whitespace character, all of whose non-whitespace
characters are alphanumeric and hyphen-free. -/
theorem slug_core (number rawName2 : List Char)
    (hnum_ne : number ≠ []) (hnum : ∀ c ∈ number, lowerAlnum c = true)
    (hQ : ∀ c ∈ rawName2, pyIsSpace c = false → pyIsAlnum c = true ∧ c ≠ '-')
    (hex : ∃ c ∈ rawName2, pyIsSpace c = false) :
    matchesSlugRegex ("hackerbox-".data ++ number ++ '-' ::
      pyLowerList (joinSep ['-'] (pySplitWs rawName2))) = true := by
  have htok := pySplitWsAux_sound (fun c => pyIsAlnum c = true ∧ c ≠ '-') rawName2 []
    (by simp) (fun c hc hws => hQ c hc hws)
  have htne : pySplitWsAux [] rawName2 ≠ [] := pySplitWsAux_ne_nil rawName2 [] (Or.inr hex)
  rw [pyLowerList_joinSep]
  rw [show "hackerbox-".data = "hackerbox".data ++ ['-'] from by decide]
  rw [List.append_assoc, List.append_assoc, List.singleton_append]
  rw [matchesSlugRegex, splitD_append_dash, splitD_append_dash]
  rw [splitD_no_dash number fun c hc => lowerAlnum_ne_dash (hnum c hc)]
  rw [splitD_joinSep]
  · rw [show splitD "hackerbox".data = ["hackerbox".data] from by decide]
    simp only [List.all_append, List.all_cons, List.all_nil, Bool.and_eq_true]
    refine ⟨⟨by decide, by decide⟩, ⟨?_, by decide⟩, ?_⟩
    · simp only [Bool.and_eq_true, Bool.not_eq_true']
      refine ⟨by simpa [List.isEmpty_iff] using hnum_ne, ?_⟩
      rw [List.all_eq_true]
      exact hnum
    · rw [List.all_eq_true]
      intro t' ht'
      obtain ⟨t, ht, rfl⟩ := List.mem_map.mp ht'
      obtain ⟨htne', htchars⟩ := htok t ht
      simp only [Bool.and_eq_true, Bool.not_eq_true']
      constructor
      · simp [pyLowerList, List.isEmpty_iff, htne']
      · rw [List.all_eq_true]
        intro c' hc'
        obtain ⟨c, hc, rfl⟩ := List.mem_map.mp hc'
        exact pyLower_lowerAlnum (htchars c hc).1.1
  · simp only [ne_eq, List.map_eq_nil_iff]
    exact htne
  · intro t' ht' c' hc'
    obtain ⟨t, ht, rfl⟩ := List.mem_map.mp ht'
    obtain ⟨c, hc, rfl⟩ := List.mem_map.mp hc'
    exact lowerAlnum_ne_dash (pyLower_lowerAlnum ((htok t ht).2 c hc).1.1)

/-- C4 counterexample: the label "HackerBox #0001 - !!!" contains " - "
after the 11-character prefix, yet its slug "hackerbox-0001-" ends in a
hyphen and so fails the invariant regex ^[a-z0-9]+(-[a-z0-9]+)*$. -/
theorem C4_counterexample :
    parse_name "HackerBox #0001 - !!!" = .ok "hackerbox-0001-" ∧
    matchesSlugRegex "hackerbox-0001-".data = false ∧
    containsSub sepDash ("HackerBox #0001 - !!!".data.drop 11) = true := by
  refine ⟨by decide, by decide, by decide⟩

/-- C4 amended: the normalized slug matches ^[a-z0-9]+(-[a-z0-9]+)*$ for
every raw label containing " - " after the 11-character prefix whose
stripped number part is nonempty lowercase alphanumeric and whose truncated
title contains no hyphen and at least one alphanumeric character (the
exception table's values all match the regex as well). -/
theorem C4_amended (label : String) (numberRaw rawName0 : List Char)
    (hsplit : splitFirst sepDash (label.data.drop 11) = some (numberRaw, rawName0))
    (hnum_ne : pyStrip numberRaw ≠ [])
    (hnum : ∀ c ∈ pyStrip numberRaw, lowerAlnum c = true)
    (hnodash : ∀ c ∈ truncAtSep rawName0, c ≠ '-')
    (halnum : ∃ c ∈ truncAtSep rawName0, pyIsAlnum c = true)
    (slug : String) (hok : parse_name label = .ok slug) :
    matchesSlugRegex slug.data = true := by
  simp only [parse_name, hsplit] at hok
  split at hok
  · injection hok with h1
    subst h1
    exact lookup_NAME_EXCEPTIONS_regex _ _ (by assumption)
  · injection hok with h1
    subst h1
    show matchesSlugRegex ("hackerbox-".data ++ pyStrip numberRaw ++ '-' ::
      pyLowerList (joinSep ['-'] (pySplitWs
        (if pyIsAlnumStr (truncAtSep rawName0) = true then truncAtSep rawName0
         else (truncAtSep rawName0).filter keepChar)))) = true
    by_cases ha : pyIsAlnumStr (truncAtSep rawName0) = true
    · rw [if_pos ha]
      refine slug_core _ _ hnum_ne hnum ?_ ?_
      · intro c hc _
        have hall : pyIsAlnum c = true := by
          simp only [pyIsAlnumStr, Bool.and_eq_true, List.all_eq_true] at ha
          exact ha.2 c hc
        exact ⟨hall, hnodash c hc⟩
      · obtain ⟨c, hc, hca⟩ := halnum
        exact ⟨c, hc, not_space_of_alnum hca⟩
    · rw [if_neg ha]
      refine slug_core _ _ hnum_ne hnum ?_ ?_
      · intro c hc hws
        obtain ⟨hcmem, hkeep⟩ := List.mem_filter.mp hc
        have hnd : c ≠ '-' := hnodash c hcmem
        simp only [keepChar, Bool.or_eq_true] at hkeep
        rcases hkeep with (h1 | h2) | h3
        · exact ⟨h1, hnd⟩
        · simp [hws] at h2
        · exact absurd (by simpa using h3) hnd
      · obtain ⟨c, hc, hca⟩ := halnum
        exact ⟨c, List.mem_filter.mpr ⟨hc, by simp [keepChar, hca]⟩, not_space_of_alnum hca⟩

theorem C4_amended_witness :
    matchesSlugRegex "hackerbox-0095-ai-camera".data = true :=
  C4_amended "HackerBox #0095 - AI Camera Lab - Build a Vision System"
    "0095".data "AI Camera Lab - Build a Vision System".data
    (by decide) (by decide) (by decide) (by decide) (by decide)
    "hackerbox-0095-ai-camera" (by decide)

/-!  Lemmas about the bullet regex scanner. -/

theorem listStartsWith_append_self (p t : List Char) : listStartsWith p (p ++ t) = true := by
  induction p with
  | nil => rfl
  | cons c p ih => simp [listStartsWith, ih]

theorem matchClose_litClose (r : List Char) :
    matchClose ('<' :: '/' :: 'l' :: 'i' :: '>' :: '\n' :: r) = some r := by
  have h1 : listStartsWith escClose ('<' :: '/' :: 'l' :: 'i' :: '>' :: '\n' :: r) = false := rfl
  have h2 : listStartsWith litClose ('<' :: '/' :: 'l' :: 'i' :: '>' :: '\n' :: r) = true := by
    exact listStartsWith_append_self litClose r
  rw [matchClose, if_neg (by simp [h1]), if_pos (by simp [h2])]
  rfl

theorem matchClose_cons_ne (y : Char) (l : List Char) (h : y ≠ '<') :
    matchClose (y :: l) = none := by
  have hb : ('<' == y) = false := beq_eq_false_iff_ne.mpr (Ne.symm h)
  have h1 : listStartsWith escClose (y :: l) = false := by
    simp [escClose, listStartsWith, hb]
  have h2 : listStartsWith litClose (y :: l) = false := by
    simp [litClose, listStartsWith, hb]
  rw [matchClose, if_neg (by simp [h1]), if_neg (by simp [h2])]

theorem tryBody_block (r : List Char) :
    ∀ (b acc : List Char), b ≠ [] → (∀ c ∈ b, c ≠ '\n' ∧ c ≠ '<') →
      tryBody acc (b ++ ('<' :: '/' :: 'l' :: 'i' :: '>' :: '\n' :: r)) = some (acc ++ b, r) := by
  intro b
  induction b with
  | nil => intro acc h _; exact absurd rfl h
  | cons x t ih =>
    intro acc _ hc
    obtain ⟨hx1, _⟩ := hc x (List.mem_cons_self _ _)
    have hxb : (x == '\n') = false := beq_eq_false_iff_ne.mpr hx1
    rw [List.cons_append, tryBody, if_neg (by simp [hxb])]
    cases t with
    | nil =>
      rw [List.nil_append, matchClose_litClose]
    | cons y t' =>
      have hy : y ≠ '<' := (hc y (by simp)).2
      rw [List.cons_append]
      rw [matchClose_cons_ne y _ hy]
      rw [← List.cons_append]
      rw [ih (acc ++ [x]) (by simp) (fun d hd => hc d (List.mem_cons_of_mem _ hd))]
      simp

theorem tryAttrs_block (b r : List Char) (hb : b ≠ [])
    (hc : ∀ c ∈ b, c ≠ '\n' ∧ c ≠ '<') :
    tryAttrs ('>' :: (b ++ ('<' :: '/' :: 'l' :: 'i' :: '>' :: '\n' :: r))) = some (b, r) := by
  rw [tryAttrs, if_pos (show ('>' == '>') = true from rfl)]
  rw [tryBody_block r b [] hb hc]
  simp

/-- One newline-delimited list item block: a newline, the plain opening tag,
the bullet text, the closing tag and a trailing newline. -/
def liBlock (b : List Char) : List Char :=
  '\n' :: '<' :: 'l' :: 'i' :: '>' :: (b ++ ('<' :: '/' :: 'l' :: 'i' :: '>' :: '\n' :: []))

/-- A description fragment made of newline-delimited list item blocks. -/
def liBlocks (bs : List (List Char)) : List Char := (bs.map liBlock).flatten

theorem tryMatchAt_block (b r : List Char) (hb : b ≠ [])
    (hc : ∀ c ∈ b, c ≠ '\n' ∧ c ≠ '<') :
    tryMatchAt ('\n' :: '<' :: 'l' :: 'i' :: '>' ::
      (b ++ ('<' :: '/' :: 'l' :: 'i' :: '>' :: '\n' :: r))) = some (b, r) := by
  rw [tryMatchAt, if_pos ?hs]
  · exact tryAttrs_block b r hb hc
  case hs =>
    show listStartsWith liOpen _ = true
    rfl

theorem findallAux_liBlocks :
    ∀ (bs : List (List Char)) (fuel : Nat),
      (∀ b ∈ bs, b ≠ [] ∧ ∀ c ∈ b, c ≠ '\n' ∧ c ≠ '<') →
      (liBlocks bs).length ≤ fuel →
      findallAux fuel (liBlocks bs) = bs := by
  intro bs
  induction bs with
  | nil =>
    intro fuel _ _
    show findallAux fuel [] = []
    cases fuel <;> rfl
  | cons b bs ih =>
    intro fuel hcond hfuel
    obtain ⟨hbne, hbchars⟩ := hcond b (List.mem_cons_self _ _)
    have hshape : liBlocks (b :: bs) =
        '\n' :: '<' :: 'l' :: 'i' :: '>' ::
          (b ++ ('<' :: '/' :: 'l' :: 'i' :: '>' :: '\n' :: liBlocks bs)) := by
      simp [liBlocks, liBlock, List.append_assoc]
    have hlen : (liBlocks (b :: bs)).length = b.length + 11 + (liBlocks bs).length := by
      rw [hshape]
      simp [List.length_append]
      omega
    obtain ⟨f, rfl⟩ : ∃ f, fuel = f + 1 := by
      refine ⟨fuel - 1, ?_⟩
      omega
    rw [hshape, findallAux, tryMatchAt_block b (liBlocks bs) hbne hbchars]
    show b :: findallAux f (liBlocks bs) = b :: bs
    rw [ih f (fun u hu => hcond u (List.mem_cons_of_mem _ hu)) (by omega)]

/-- C5 counterexample: the fragment "<li>a</li>" contains one li element
with inner text "a" (as the spec-modelled extractor shows), but the
source's regex requires a newline before "<li" and after "</li>", so
re.findall extracts nothing. -/
theorem C5_counterexample :
    specLiElems "<li>a</li>".data = ["a".data] ∧ findLis "<li>a</li>".data = [] := by
  refine ⟨by decide, by decide⟩

/-- C5 amended: the extractor returns exactly the ordered inner texts of the
newline-delimited li elements — each opening tag preceded by a newline and
each closing tag followed by its own newline (not shared with the next
element) — for inner texts that are nonempty and free of newlines and of
the character '<'; both the literal and the escaped closing tag are
accepted (the escaped variant is exercised by the concrete evaluations). -/
theorem C5_amended (bs : List (List Char))
    (h : ∀ b ∈ bs, b ≠ [] ∧ ∀ c ∈ b, c ≠ '\n' ∧ c ≠ '<') :
    findLis (liBlocks bs) = bs :=
  findallAux_liBlocks bs (liBlocks bs).length h (Nat.le_refl _)

theorem C5_amended_witness :
    findLis (liBlocks ["a".data, "b2".data]) = ["a".data, "b2".data] :=
  C5_amended ["a".data, "b2".data] (by decide)

/-!  Lemmas about the round-trip stripping of the table contents. -/

theorem containsSub_of_startsWith_drop (pat : List Char) (hpat : pat ≠ []) :
    ∀ (b : List Char) (i : Nat), listStartsWith pat (b.drop i) = true →
      containsSub pat b = true := by
  intro b
  induction b with
  | nil =>
    intro i h
    rw [List.drop_nil] at h
    cases pat with
    | nil => exact absurd rfl hpat
    | cons p ps => simp [listStartsWith] at h
  | cons c rest ih =>
    intro i h
    cases i with
    | zero =>
      rw [List.drop_zero] at h
      rw [containsSub]
      simp [h]
    | succ i =>
      have := ih i (by simpa using h)
      rw [containsSub]
      simp [this]

theorem splitFirst_exact (sep : List Char) (hsep : sep ≠ []) :
    ∀ (b r : List Char),
      (∀ i, i < b.length → listStartsWith sep ((b ++ sep ++ r).drop i) = false) →
      splitFirst sep (b ++ sep ++ r) = some (b, r) := by
  intro b
  induction b with
  | nil =>
    intro r _
    rw [List.nil_append]
    cases sep with
    | nil => exact absurd rfl hsep
    | cons p ps =>
      rw [List.cons_append, splitFirst]
      rw [if_pos (by
        have := listStartsWith_append_self (p :: ps) r
        simpa [List.cons_append] using this)]
      rw [← List.cons_append, List.drop_left]
  | cons c b' ih =>
    intro r hpos
    have h0 : listStartsWith sep (c :: (b' ++ sep ++ r)) = false := by
      simpa using hpos 0 (by simp)
    show splitFirst sep (c :: (b' ++ sep ++ r)) = some (c :: b', r)
    rw [splitFirst, if_neg (by rw [h0]; decide)]
    rw [ih r (fun i hi => by simpa using hpos (i + 1) (by simp; omega))]

/-- No occurrence of the closing li tag can start inside the bullet and
run across the boundary into the real closing tag: any such occurrence
would have to begin with the tag itself. -/
theorem tag_no_overlap (d X : List Char) (hd : d ≠ [])
    (h : listStartsWith ['<', '/', 'l', 'i', '>']
      (d ++ '<' :: '/' :: 'l' :: 'i' :: '>' :: X) = true) :
    listStartsWith ['<', '/', 'l', 'i', '>'] d = true := by
  rcases d with _ | ⟨c1, (_ | ⟨c2, (_ | ⟨c3, (_ | ⟨c4, (_ | ⟨c5, d5⟩)⟩)⟩)⟩)⟩
  · exact absurd rfl hd
  · simp [listStartsWith] at h
  · simp [listStartsWith] at h
  · simp [listStartsWith] at h
  · simp [listStartsWith] at h
  · simp only [List.cons_append, listStartsWith, Bool.and_eq_true, beq_iff_eq] at h ⊢
    exact ⟨h.1, h.2.1, h.2.2.1, h.2.2.2.1, h.2.2.2.2.1, trivial⟩

theorem no_close_in_bullet (b r : List Char) (hb : containsSub "</li>".data b = false) :
    ∀ i, i < b.length →
      listStartsWith "</li>".data ((b ++ "</li>".data ++ r).drop i) = false := by
  intro i hi
  by_contra hcon
  rw [Bool.not_eq_false] at hcon
  rw [List.append_assoc, List.drop_append_eq_append_drop,
    show i - b.length = 0 from by omega, List.drop_zero] at hcon
  have hd : b.drop i ≠ [] := by
    rw [ne_eq, List.drop_eq_nil_iff]
    omega
  rw [show ("</li>".data : List Char) = ['<', '/', 'l', 'i', '>'] from rfl] at hcon hb
  simp only [List.cons_append, List.nil_append] at hcon
  have hstart := tag_no_overlap (b.drop i) r hd hcon
  have hcontains := containsSub_of_startsWith_drop ['<', '/', 'l', 'i', '>'] (by decide) b i hstart
  rw [hcontains] at hb
  cases hb

theorem parseLis_flatten :
    ∀ (bs : List (List Char)) (fuel : Nat),
      (∀ b ∈ bs, containsSub "</li>".data b = false) →
      ((bs.map wrapLi).flatten).length ≤ fuel →
      parseLis fuel ((bs.map wrapLi).flatten) = some bs := by
  intro bs
  induction bs with
  | nil =>
    intro fuel _ _
    show parseLis fuel [] = some []
    cases fuel <;> rfl
  | cons b bs ih =>
    intro fuel hcond hfuel
    have hshape : (((b :: bs).map wrapLi).flatten) =
        '<' :: 'l' :: 'i' :: '>' :: (b ++ "</li>".data ++ (bs.map wrapLi).flatten) := by
      simp [wrapLi, List.append_assoc]
    have hlen : (((b :: bs).map wrapLi).flatten).length =
        b.length + 9 + ((bs.map wrapLi).flatten).length := by
      rw [hshape]
      simp [List.length_append]
      omega
    obtain ⟨f, rfl⟩ : ∃ f, fuel = f + 1 := ⟨fuel - 1, by omega⟩
    rw [hshape] at hfuel ⊢
    show (match splitFirst "</li>".data (b ++ "</li>".data ++ (bs.map wrapLi).flatten) with
      | some (inner, more) =>
        match parseLis f more with
        | some items => some (inner :: items)
        | none => none
      | none => none) = some (b :: bs)
    rw [splitFirst_exact "</li>".data (by decide) b ((bs.map wrapLi).flatten)
      (no_close_in_bullet b ((bs.map wrapLi).flatten) (hcond b (List.mem_cons_self _ _)))]
    show (match parseLis f ((bs.map wrapLi).flatten) with
      | some items => some (b :: items)
      | none => none) = some (b :: bs)
    rw [ih f (fun u hu => hcond u (List.mem_cons_of_mem _ hu)) (by
      rw [hshape] at hlen
      simp [List.length_append] at hlen hfuel ⊢
      omega)]

/-- Round-trip core: stripping the wrappers from the table contents string
recovers the bullet list, provided no bullet contains the closing tag. -/
theorem C3_roundtrip_core (bs : List (List Char))
    (h : ∀ b ∈ bs, containsSub "</li>".data b = false) :
    stripWrappers (tableContents bs) = some bs := by
  have hshape : tableContents bs =
      "<ul>".data ++ ((bs.map wrapLi).flatten ++ "</ul>".data) := by
    simp [tableContents, List.append_assoc]
  rw [hshape]
  simp only [stripWrappers]
  rw [if_pos (listStartsWith_append_self "<ul>".data _)]
  rw [show ("<ul>".data ++ ((bs.map wrapLi).flatten ++ "</ul>".data)).drop 4
      = (bs.map wrapLi).flatten ++ "</ul>".data from by
    have h4 := List.drop_left "<ul>".data ((bs.map wrapLi).flatten ++ "</ul>".data)
    rw [show ("<ul>".data : List Char).length = 4 from rfl] at h4
    exact h4]
  rw [if_pos (by
    rw [listEndsWith, List.reverse_append]
    exact listStartsWith_append_self _ _)]
  have htake : ((bs.map wrapLi).flatten ++ "</ul>".data).take
      (((bs.map wrapLi).flatten ++ "</ul>".data).length - 5) = (bs.map wrapLi).flatten := by
    rw [List.length_append,
      show ("</ul>".data : List Char).length = 5 from rfl,
      show (bs.map wrapLi).flatten.length + 5 - 5 = (bs.map wrapLi).flatten.length from by omega]
    exact List.take_left _ _
  rw [htake]
  refine parseLis_flatten bs _ h ?_
  rw [List.length_append]
  omega

/-- C3 amended: for every get_box_contents call in which no extracted
bullet contains the substring "</li>", the TableRow's contents field,
stripped of its outer <ul></ul> wrapper and of the <li></li> wrapper around
each item, yields exactly the same ordered bullet sequence as the JsonRow's
contents field. -/
theorem C3_roundtrip (name : String) (detail : HttpResponse)
    (imageFetch : String → HttpResponse) (res : BoxResult)
    (hok : get_box_contents_m name detail imageFetch = .ok res)
    (hclean : ∀ b ∈ res.json_data.contents, containsSub "</li>".data b.data = false) :
    stripWrappers res.table_data.contents.data =
      some (res.json_data.contents.map String.data) := by
  simp only [get_box_contents_m] at hok
  cases hsp : searchProduct detail.body.data with
  | none =>
    simp only [hsp] at hok
    cases hok
  | some g =>
    simp only [hsp] at hok
    cases hjs : jsonLoadsFlat g with
    | none =>
      simp only [hjs] at hok
      cases hok
    | some product =>
      simp only [hjs] at hok
      cases hd : dictGet "description" product with
      | none =>
        simp only [hd] at hok
        cases hok
      | some description =>
        simp only [hd] at hok
        by_cases hde : description.data.isEmpty = true
        · simp only [hde, if_true] at hok
          cases hok
        · simp only [hde, if_false] at hok
          cases hfi : dictGet "featured_image" product with
          | none =>
            simp only [hfi] at hok
            cases hok
          | some featured =>
            simp only [hfi] at hok
            injection hok with h1
            subst h1
            show stripWrappers (tableContents (findLis description.data)) =
              some (((findLis description.data).map String.mk).map String.data)
            have hmaps : ((findLis description.data).map String.mk).map String.data
                = findLis description.data := by
              rw [List.map_map]
              exact List.map_id' _
            rw [hmaps]
            refine C3_roundtrip_core _ ?_
            intro b hb
            exact hclean (String.mk b) (List.mem_map_of_mem _ hb)

/-- Detail-page body used for the C3 counterexample: its description holds
a closing tag not followed by a newline, so the extracted bullet itself
contains "</li>". -/
def bodyC3 : String :=
  "ProductJson-product-template\">\n  \x7b\"description\": \"\\n<li>a</li>x</li>\\n\", \"featured_image\": \"//c/i.png\"\x7d\n  </script> "

/-- C3 counterexample: a get_box_contents call whose extracted bullet is
"a</li>x"; the TableRow contents "<ul><li>a</li>x</li></ul>" cannot be
stripped back (the strip fails), so it does not reproduce the JsonRow
bullet sequence. -/
theorem C3_counterexample :
    (get_box_contents_m "b" { status := 200, body := bodyC3 }
        (fun _ => { status := 200, body := "" })).map
      (fun r => (r.table_data.contents, stripWrappers r.table_data.contents.data,
        r.json_data.contents)) =
    .ok ("<ul><li>a</li>x</li></ul>", none, ["a</li>x"]) := by decide

/-- Detail-page body used for the C3 witness: one clean bullet. -/
def bodyC3w : String :=
  "ProductJson-product-template\">\n  \x7b\"description\": \"\\n<li>a</li>\\n\", \"featured_image\": \"//c/i.png\"\x7d\n  </script> "

theorem C3_roundtrip_witness :
    stripWrappers "<ul><li>a</li></ul>".data = some ((["a"] : List String).map String.data) :=
  C3_roundtrip "b" { status := 200, body := bodyC3w } (fun _ => { status := 200, body := "" })
    { table_data :=
        { name := "[b](https://hackerboxes.com/collections/past-hackerboxes/products/b)",
          picture := "![b](assets/b.png)",
          contents := "<ul><li>a</li></ul>" },
      json_data := { name := "b", picture := "![b](assets/b.png)", contents := ["a"] },
      image_path := "b.png",
      image_bytes := "" }
    (by decide) (by decide)
